import Mathlib

/-!
Verification of the wsServer static-asset subsystem.

This file contains a shallow embedding of the two halves of the subsystem:

* the runtime resolver/responder from `src/statics.h`
  (`get_content_between`, `ends_with`, `find_root_alias`, `static_find_path`,
  `http_parse_request_line`, `http_send_response`, `serve_static_http`), and
* the offline asset compiler from `extra/dir2statics/dir2statics.c`
  (`content_type_for_filename`, `cmp_strptr`-driven sorting,
  `emit_u8_gz_array`, and the table emission performed by `main`).

C byte strings are modelled as `List Char` (one `Char` per byte; all inputs of
interest are ASCII, and every operation of the C code is byte-wise).  External
libraries (zlib, SHA-1) are modelled as function parameters, since their code
is not part of this repository.  Fallible C paths are modelled with `Option`.
-/

/-! ## Byte-string primitives (string.h / ctype.h behaviour) -/

/-- List of the characters of a string literal. -/
def strL (s : String) : List Char := s.data

/-- Model of C `tolower` restricted to ASCII, as used by `strcasestr` /
`strstricase_local` on the byte values that occur in HTTP headers. -/
def toLowerC (c : Char) : Char :=
  if 65 ≤ c.toNat ∧ c.toNat ≤ 90 then Char.ofNat (c.toNat + 32) else c

/-- Does `nee` occur (case-insensitively) at the head of `hay`?
Mirrors the inner loop of `strcasestr`: an empty needle always matches,
running off the end of the haystack fails. -/
def begMatchCI : List Char → List Char → Bool
  | [], _ => true
  | _ :: _, [] => false
  | n :: ns, h :: hs => (toLowerC h == toLowerC n) && begMatchCI ns hs

/-- Model of `strcasestr`: index of the first case-insensitive occurrence of
`nee` in `hay` (`none` when absent).  The C function returns a pointer; the
index determines it. -/
def findSubCI : List Char → List Char → Option Nat
  | hay, nee =>
    if begMatchCI nee hay then some 0
    else
      match hay with
      | [] => none
      | _ :: t => (findSubCI t nee).map (fun n => n + 1)

/-- Does `nee` occur (case-sensitively) at the head of `hay`? (for `strstr`). -/
def begMatch : List Char → List Char → Bool
  | [], _ => true
  | _ :: _, [] => false
  | n :: ns, h :: hs => (h == n) && begMatch ns hs

/-- Model of `strstr`: index of the first occurrence of `nee` in `hay`. -/
def findSub : List Char → List Char → Option Nat
  | hay, nee =>
    if begMatch nee hay then some 0
    else
      match hay with
      | [] => none
      | _ :: t => (findSub t nee).map (fun n => n + 1)

/-- Model of `strchr`: index of the first occurrence of character `x`. -/
def findChar : List Char → Char → Option Nat
  | [], _ => none
  | c :: t, x => if c = x then some 0 else (findChar t x).map (fun n => n + 1)

/-- Model of `ends_with` from statics.h: `memcmp` of the last `suffix_len`
bytes (null-pointer cases cannot arise in the list model). -/
def ends_with (s suffix : List Char) : Bool :=
  if suffix.length ≤ s.length then
    s.drop (s.length - suffix.length) == suffix
  else false

/-- Model of `get_content_between` from statics.h: find the first
case-insensitive occurrence of `start_term`, then the first case-insensitive
occurrence of `end_term` after it; return the content suffix starting right
after `start_term` together with the distance to `end_term` (`foundSize`). -/
def get_content_between (buffer start_term end_term : List Char) :
    Option (List Char × Nat) :=
  match findSubCI buffer start_term with
  | none => none
  | some i =>
    match findSubCI (buffer.drop (i + start_term.length)) end_term with
    | none => none
    | some j => some (buffer.drop (i + start_term.length), j)

/-! ## Runtime data model -/

/-- One entry of a `ws_static_asset_set_t`: `urls[i]`, `contentType[i]`
(the custom-headers string), and `content[i]`.  The parallel `sizes[i]`
entry of every table this code serves is the size of the content array, so
it is modelled as `content.length`. -/
structure AssetRecord where
  url : List Char
  contentType : List Char
  content : List Char
deriving DecidableEq

/-- The root-alias state: the `static_root_alias` buffer plus the
`found_root_alias` flag. -/
structure RootState where
  rootAlias : List Char
  found : Bool
deriving DecidableEq

/-- The string constant `"/index.html"` of `find_root_alias`, which is also
the compiled-in initial value of `static_root_alias`. -/
def index_html : List Char := strL "/index.html"

/-- The string constant `".html"` of `find_root_alias`. -/
def dot_html : List Char := strL ".html"

/-- The string constant `"/"`. -/
def slash : List Char := strL "/"

/-- The scan loop of `find_root_alias`: walk the url list carrying the
`html_count` counter and the `gotIt` slot (the url of the most recent
`.html` entry).  Stops, returning the url, at the first entry equal to
`"/index.html"` or `"/"`; otherwise returns the final counter state. -/
def alias_loop : List (List Char) → Nat → Option (List Char) →
    Option (List Char) × Nat × Option (List Char)
  | [], cnt, got => (none, cnt, got)
  | u :: rest, cnt, got =>
    if u = index_html ∨ u = slash then (some u, cnt, got)
    else if ends_with u dot_html then alias_loop rest (cnt + 1) (some u)
    else alias_loop rest cnt got

/-- Model of `find_root_alias`: runs at most once (guarded by `found`);
aborts without scanning when the alias was already changed from its default;
otherwise scans the table.  `snprintf` into the 256-byte buffer truncates a
stored url to 255 bytes, hence the `take 255`. -/
def find_root_alias (st : RootState) (urls : List (List Char)) : RootState :=
  if st.found then st
  else if st.rootAlias ≠ index_html then { st with found := true }
  else
    match alias_loop urls 0 none with
    | (some u, _, _) => { rootAlias := u.take 255, found := true }
    | (none, 1, some u) => { rootAlias := u.take 255, found := true }
    | (none, _, _) => { st with found := true }

/-- Query-string stripping performed by `static_find_path`: the bytes before
the first `'?'` (all bytes when there is none). -/
def strip_query : List Char → List Char
  | [] => []
  | c :: t => if c = '?' then [] else c :: strip_query t

/-- The lookup loop of `static_find_path`: first table entry whose url
equals `tmp` (the C code also skips NULL url pointers, which cannot occur in
the list model). -/
def findAsset : List AssetRecord → List Char → Option AssetRecord
  | [], _ => none
  | a :: t, u => if a.url = u then some a else findAsset t u

/-- Model of `static_find_path` (after root-alias resolution, whose current
value is the `aliasv` argument): empty path becomes `"/"`; a path of exactly
`"/"` is replaced by the root alias; the query string is stripped; the result
is truncated to 511 bytes (the `tmp[512]` buffer); the table is scanned for
an exact match. -/
def static_find_path (aliasv : List Char) (table : List AssetRecord)
    (path : List Char) : Option AssetRecord :=
  let p1 := if path = [] then slash else path
  let p2 := if p1 = slash then aliasv else p1
  let tmp := (strip_query p2).take 511
  findAsset table tmp

/-! ## HTTP responder -/

/-- Model of `http_reason_phrase`. -/
def http_reason_phrase (code : Nat) : List Char :=
  match code with
  | 200 => strL "OK"
  | 400 => strL "Bad Request"
  | 404 => strL "Not Found"
  | 405 => strL "Method Not Allowed"
  | _ => strL "OK"

/-- Decimal rendering of a natural number (for `snprintf` `%d` / `%u`). -/
def natDigitsAux : Nat → Nat → List Char
  | 0, _ => []
  | fuel + 1, n =>
    if n < 10 then [Char.ofNat (48 + n)]
    else natDigitsAux fuel (n / 10) ++ [Char.ofNat (48 + n % 10)]

/-- Decimal rendering of a natural number. -/
def natDigits (n : Nat) : List Char := natDigitsAux (n + 1) n

/-- The custom-headers block assembled by `http_send_response` into
`customHdrs`: when the content-type string ends in CRLF it is taken as full
header lines (with `Cache-Control: no-cache` injected unless an `etag:` or
`Cache-Control:` line is already present); otherwise it is wrapped into a
`Content-Type:` line.  A missing content type defaults to plain text. -/
def mkCustomHdrs (ct : Option (List Char)) : List Char :=
  let c := ct.getD (strL "text/plain; charset=utf-8")
  if ends_with c (strL "\r\n") then
    if (get_content_between c (strL "etag:") (strL "\r")).isSome then c
    else if (get_content_between c (strL "Cache-Control:") (strL "\r")).isSome then c
    else strL "Cache-Control: no-cache\r\n" ++ c
  else
    strL "Cache-Control: no-cache\r\nContent-Type: " ++ c ++ strL "\r\n"

/-- A synthesized HTTP response: status code, custom header block, the value
of the `Content-Length` header, and the body bytes actually sent. -/
structure Response where
  code : Nat
  customHdrs : List Char
  contentLength : Nat
  body : List Char
deriving DecidableEq

/-- The header bytes sent by `http_send_response` (status line,
`Connection: close`, custom headers, `Content-Length`, blank line). -/
def render_header (r : Response) : List Char :=
  strL "HTTP/1.1 " ++ natDigits r.code ++ strL " " ++ http_reason_phrase r.code
    ++ strL "\r\n" ++ strL "Connection: close\r\n" ++ r.customHdrs
    ++ strL "Content-Length: " ++ natDigits r.contentLength ++ strL "\r\n\r\n"

/-- Body bytes sent by `http_send_response`: nothing when the body pointer is
NULL or `body_len` is zero, else `body_len` bytes from the pointer. -/
def bodyBytes : Option (List Char) → Nat → List Char
  | none, _ => []
  | some b, len => if len = 0 then [] else b.take len

/-- Model of `http_send_response`.  The function fails (returns `-1`, here
`none`) when the assembled header does not fit the 512-byte `hdr` buffer;
`snprintf` truncation of the intermediate 512-byte `customHdrs` buffer can
only occur when this final check fails as well, so it needs no separate
modelling.  Send failures of the transport are outside the model. -/
def http_send_response (code : Nat) (ct : Option (List Char))
    (body : Option (List Char)) (body_len : Nat) : Option Response :=
  if 512 ≤ (render_header
      ⟨code, mkCustomHdrs ct, body_len, bodyBytes body body_len⟩).length then
    none
  else some ⟨code, mkCustomHdrs ct, body_len, bodyBytes body body_len⟩

/-- The path/headers part of `http_parse_request_line`, applied to the bytes
after the first space: find the next space (end of the path), then the first
newline after it; the headers are everything after that newline. -/
def parse_rest (r : List Char) : Option (List Char × List Char) :=
  match findChar r ' ' with
  | none => none
  | some j =>
    match findChar (r.drop (j + 1)) '\n' with
    | none => none
    | some k => some (r.take j, (r.drop (j + 1)).drop (k + 1))

/-- Model of `http_parse_request_line` (with a non-NULL `headers` argument,
as called from `serve_static_http`): split at the first two spaces and the
following newline. -/
def http_parse_request_line (buf : List Char) :
    Option (List Char × List Char × List Char) :=
  match findChar buf ' ' with
  | none => none
  | some i =>
    (parse_rest (buf.drop (i + 1))).map (fun ph => (buf.take i, ph.1, ph.2))

/-- The ETag extraction of `serve_static_http`: the content between
`etag: "` and `"` in the entry's custom-headers string, accepted only when
it is exactly 40 bytes long, in which case the first 40 bytes after the
opening quote form the searchable token `findEtag`. -/
def etagTok (custom : List Char) : Option (List Char) :=
  match get_content_between custom (strL "etag: \"") (strL "\"") with
  | none => none
  | some (content, sz) => if sz = 40 then some (content.take 40) else none

/-- The conditional-GET decision of `serve_static_http`: the entry carries a
40-byte ETag token, the headers contain `if-none-match:`
(case-insensitively), and the first case-insensitive occurrence of the token
after it starts less than 5 bytes after the colon. -/
def negotiate (entry : AssetRecord) (hdrs : List Char) : Bool :=
  match etagTok entry.contentType with
  | none => false
  | some tok =>
    match get_content_between hdrs (strL "if-none-match:") tok with
    | none => false
    | some (_, gap) => decide (gap < 5)

/-- The found-entry tail of `serve_static_http`: 304 on a successful
negotiation (no body, `sizes[idx]` as length), otherwise 200 with no body for
HEAD and the full payload for GET. -/
def serve_found (method : List Char) (entry : AssetRecord)
    (hdrs : List Char) : Option Response :=
  if negotiate entry hdrs then
    http_send_response 304 (some entry.contentType) none entry.content.length
  else if method = strL "HEAD" then
    http_send_response 200 (some entry.contentType) none entry.content.length
  else
    http_send_response 200 (some entry.contentType) (some entry.content)
      entry.content.length

/-- The lookup stage of `serve_static_http`: 404 when `static_find_path`
returned a negative index, otherwise the found-entry tail. -/
def serve_looked_up (method hdrs : List Char) :
    Option AssetRecord → Option Response
  | none =>
    http_send_response 404 none (some (strL "Not Found\n"))
      (strL "Not Found\n").length
  | some entry => serve_found method entry hdrs

/-- The post-parse stage of `serve_static_http`: 400 when
`http_parse_request_line` failed, 405 for a method other than GET/HEAD,
then the table lookup. -/
def serve_parsed (aliasv : List Char) (table : List AssetRecord) :
    Option (List Char × List Char × List Char) → Option Response
  | none =>
    http_send_response 400 none (some (strL "Bad Request\n"))
      (strL "Bad Request\n").length
  | some (method, path, hdrs) =>
    if method ≠ strL "GET" ∧ method ≠ strL "HEAD" then
      http_send_response 405 none (some (strL "Method Not Allowed\n"))
        (strL "Method Not Allowed\n").length
    else serve_looked_up method hdrs (static_find_path aliasv table path)

/-- Model of `serve_static_http`, parameterized by the current root-alias
value (the `static_root_alias` cell after `find_root_alias`, which
`static_find_path` consults): reject buffers without a blank line (400),
then parse, method-check, look up, negotiate and answer; each early
`return` of the C function is one stage above. -/
def serve_static_http (aliasv : List Char) (table : List AssetRecord)
    (req : List Char) : Option Response :=
  if (findSub req (strL "\r\n\r\n")).isSome = false then
    http_send_response 400 none (some (strL "Bad Request\n"))
      (strL "Bad Request\n").length
  else serve_parsed aliasv table (http_parse_request_line req)

/-! ## Offline asset compiler (dir2statics.c) -/

/-- Model of `content_type_for_filename`: MIME type from the extension after
the last dot, rejected (`none`) when there is no dot or the name starts with
its last dot; comparison is case-insensitive (`strcasecmp`). -/
def content_type_for_filename (name : List Char) : Option (List Char) :=
  match findChar name.reverse '.' with
  | none => none
  | some j =>
    if name.length - 1 - j = 0 then none
    else
      let ext := (name.drop (name.length - 1 - j)).map toLowerC
      if ext = strL ".html" ∨ ext = strL ".htm" then some (strL "text/html; charset=utf-8")
      else if ext = strL ".js" then some (strL "text/javascript; charset=utf-8")
      else if ext = strL ".css" then some (strL "text/css; charset=utf-8")
      else if ext = strL ".json" then some (strL "application/json; charset=utf-8")
      else if ext = strL ".txt" then some (strL "text/plain; charset=utf-8")
      else if ext = strL ".svg" then some (strL "image/svg+xml")
      else if ext = strL ".png" then some (strL "image/png")
      else if ext = strL ".jpg" ∨ ext = strL ".jpeg" then some (strL "image/jpeg")
      else if ext = strL ".gif" then some (strL "image/gif")
      else if ext = strL ".ico" then some (strL "image/x-icon")
      else if ext = strL ".wasm" then some (strL "application/wasm")
      else if ext = strL ".woff" then some (strL "font/woff")
      else if ext = strL ".woff2" then some (strL "font/woff2")
      else none

/-- The `hexEncode` table `"0123456789ABCDEF"` of `main`, indexed by a
nibble (the catch-all cannot be reached from a byte value). -/
def hexDigit : Nat → Char
  | 0 => '0' | 1 => '1' | 2 => '2' | 3 => '3'
  | 4 => '4' | 5 => '5' | 6 => '6' | 7 => '7'
  | 8 => '8' | 9 => '9' | 10 => 'A' | 11 => 'B'
  | 12 => 'C' | 13 => 'D' | 14 => 'E' | 15 => 'F'
  | _ + 16 => '0'

/-- The hex rendering loop of `main`: each digest byte becomes the hex
characters of its high and low nibble. -/
def hexRender (digest : List Nat) : List Char :=
  digest.flatMap (fun b => [hexDigit (b / 16), hexDigit (b % 16)])

/-- Model of `cmp_strptr` / `strcmp`: three-way byte-wise comparison.
Lean characters compare by their scalar value, which coincides with the
byte comparison of `strcmp` on the ASCII filenames involved. -/
def strcmpO : List Char → List Char → Ordering
  | [], [] => .eq
  | [], _ :: _ => .lt
  | _ :: _, [] => .gt
  | a :: as, b :: bs =>
    if a < b then .lt else if b < a then .gt else strcmpO as bs

/-- The `strcmp`-induced weak order used for sorting (`strcmp(a,b) <= 0`). -/
def leStr (a b : List Char) : Prop := strcmpO a b ≠ Ordering.gt

/-- Strict `strcmp` order (`strcmp(a,b) < 0`). -/
def ltStr (a b : List Char) : Prop := strcmpO a b = Ordering.lt

instance : DecidableRel leStr := fun a b => by unfold leStr; infer_instance

instance : DecidableRel ltStr := fun a b => by unfold ltStr; infer_instance

/-- Model of the `qsort(names, count, sizeof(char *), cmp_strptr)` call: the
sorted-by-`strcmp` permutation of the name list (directory scans yield
distinct names, on which every comparison sort agrees). -/
def sortStr (l : List (List Char)) : List (List Char) := List.insertionSort leStr l

/-- One input file of the compiler: a directory entry name and the file
bytes `read_file` returns for it.  Only regular files reach this stage
(`is_regular_file` filters directories and special files before admission). -/
structure SrcFile where
  name : List Char
  content : List Char
deriving DecidableEq

/-- The bytes `read_file` yields for name `n` (directory entries have unique
names, so the first match is the file). -/
def fileContent (files : List SrcFile) (n : List Char) : List Char :=
  ((files.find? (fun f => f.name == n)).map SrcFile.content).getD []

/-- The admitted, sorted name list of `main`: names whose extension passes
`content_type_for_filename`, sorted by `strcmp`. -/
def includedNames (files : List SrcFile) : List (List Char) :=
  sortStr ((files.filter
    (fun f => (content_type_for_filename f.name).isSome)).map SrcFile.name)

/-- Model of `emit_u8_gz_array`, with zlib as the `compress` parameter:
on success the compressed bytes are emitted and their size returned; when
`deflateInit2`/`deflate` fails, nothing is emitted and 0 is returned. -/
def emit_u8_gz_array (compress : List Char → Option (List Char))
    (data : List Char) : Option (List Char) × Nat :=
  match compress data with
  | some out => (some out, out.length)
  | none => (none, 0)

/-- The compiled (unescaped) form of the `CustomHeader` struct `main` builds
for one file: the struct fields spell, in C-source escaping, the string
`Etag: "<40 hex>"\r\nContent-Encoding: gzip\r\nContent-Type: <mime>\r\n`;
this is that string as the generated header's compiler sees it. -/
def mkCustomHeader (digest : List Nat) (mime : List Char) : List Char :=
  strL "Etag: \"" ++ hexRender digest ++ strL "\"\r\n"
    ++ strL "Content-Encoding: gzip\r\n"
    ++ strL "Content-Type: " ++ mime ++ strL "\r\n"

/-- The artifact emitted by `main`: the exit code of the run and the four
parallel arrays (count is the common length).  A `none` payload records that
`emit_u8_gz_array` emitted no array for that file. -/
structure CompilerOut where
  exitCode : Nat
  urls : List (List Char)
  contentTypes : List (List Char)
  payloads : List (Option (List Char))
deriving DecidableEq

/-- Model of `main` of dir2statics.c after the directory scan, with the
SHA-1 backend and the zlib backend as parameters: normalize the url prefix,
admit and sort the file names, then emit urls (prefix + name), the
custom-header strings (SHA-1 of the *original* bytes), and the compressed
payloads.  The return value of `emit_u8_gz_array` is discarded, exactly as
in the source, and the run always ends with `return 0`. -/
def dir2statics (sha1 : List Char → List Nat)
    (compress : List Char → Option (List Char))
    (pre0 : List Char) (files : List SrcFile) : CompilerOut :=
  let pre := if pre0 = [] then slash else pre0
  let names := includedNames files
  { exitCode := 0
    urls := names.map (fun n => pre ++ n)
    contentTypes := names.map (fun n =>
      mkCustomHeader (sha1 (fileContent files n))
        ((content_type_for_filename n).getD []))
    payloads := names.map (fun n =>
      (emit_u8_gz_array compress (fileContent files n)).1) }

/-! ## Helper lemmas -/

/-- The last element of `l`, defaulting to `d` (tracks the `gotIt` slot). -/
def lastOr (d : Option (List Char)) : List (List Char) → Option (List Char)
  | [] => d
  | x :: t => lastOr (some x) t

theorem alias_loop_fst (urls : List (List Char)) (cnt : Nat)
    (got : Option (List Char)) :
    (alias_loop urls cnt got).1 =
      urls.find? (fun u => decide (u = index_html ∨ u = slash)) := by
  induction urls generalizing cnt got with
  | nil => simp [alias_loop]
  | cons u rest ih =>
    by_cases h : u = index_html ∨ u = slash
    · rw [List.find?_cons_of_pos _ (by simpa using h)]
      simp [alias_loop, h]
    · rw [List.find?_cons_of_neg _ (by simpa using h)]
      by_cases hw : ends_with u dot_html = true
      · simp [alias_loop, h, hw, ih]
      · simp [alias_loop, h, hw, ih]

theorem alias_loop_of_find_none (urls : List (List Char)) (cnt : Nat)
    (got : Option (List Char))
    (h : urls.find? (fun u => decide (u = index_html ∨ u = slash)) = none) :
    alias_loop urls cnt got =
      (none, cnt + (urls.filter (fun u => ends_with u dot_html)).length,
        lastOr got (urls.filter (fun u => ends_with u dot_html))) := by
  induction urls generalizing cnt got with
  | nil => simp [alias_loop, lastOr]
  | cons u rest ih =>
    have hu : ¬(u = index_html ∨ u = slash) := by
      intro hcontra
      rw [List.find?_cons_of_pos _ (by simpa using hcontra)] at h
      exact Option.noConfusion h
    rw [List.find?_cons_of_neg _ (by simpa using hu)] at h
    by_cases hw : ends_with u dot_html = true
    · rw [show alias_loop (u :: rest) cnt got = alias_loop rest (cnt + 1) (some u) by
        simp [alias_loop, hu, hw]]
      rw [ih _ _ h]
      simp only [List.filter_cons, hw, if_true, List.length_cons, lastOr,
        Prod.mk.injEq]
      refine ⟨trivial, by omega, trivial⟩
    · rw [show alias_loop (u :: rest) cnt got = alias_loop rest cnt got by
        simp [alias_loop, hu, hw]]
      rw [ih _ _ h]
      simp [List.filter_cons, hw]

/-! ## Claim C9 -/

/-- C9: if, at the moment of first resolution, the root alias cell holds any
value other than the compiled-in default `"/index.html"`, the resolver marks
resolution as done without scanning the table (the result is the same for
every table) and leaves the alias value unchanged. -/
theorem c9_prior_alias_frame (st : RootState) (urls : List (List Char))
    (hf : st.found = false) (hne : st.rootAlias ≠ index_html) :
    find_root_alias st urls = ⟨st.rootAlias, true⟩ := by
  unfold find_root_alias
  simp [hf, hne]

/-- Witness for C9 at a concrete pre-set alias and a table that would
otherwise have produced a different alias. -/
theorem c9_prior_alias_frame_witness :
    (⟨strL "/custom.html", false⟩ : RootState).found = false ∧
    (⟨strL "/custom.html", false⟩ : RootState).rootAlias ≠ index_html ∧
    find_root_alias ⟨strL "/custom.html", false⟩ [index_html, slash] =
      ⟨strL "/custom.html", true⟩ :=
  ⟨rfl, by decide, c9_prior_alias_frame _ _ rfl (by decide)⟩

/-! ## Claim C2 -/

/-- C2 counterexample: a table that contains an entry with url exactly
`/index.html` (so the claim requires it to be chosen), but whose first
matching entry is `/`; the resolver picks `/`, not `/index.html`. -/
theorem c2_root_alias_counterexample :
    index_html ∈ [slash, index_html] ∧
    (find_root_alias ⟨index_html, false⟩ [slash, index_html]).rootAlias
      = slash ∧
    slash ≠ index_html := by decide

/-- C2 amended: starting from the untouched default state, the resolver marks
resolution done and sets the alias to the first entry (in table order) whose
url is exactly `/index.html` or exactly `/` (truncated to the 255 bytes the
alias buffer holds); when no such entry exists and exactly one url ends in
`.html`, to that url; otherwise the alias keeps its default value. -/
theorem c2_root_alias_amended (urls : List (List Char)) :
    (find_root_alias ⟨index_html, false⟩ urls).found = true ∧
    (find_root_alias ⟨index_html, false⟩ urls).rootAlias =
      (match urls.find? (fun u => decide (u = index_html ∨ u = slash)) with
       | some u => u.take 255
       | none =>
         match urls.filter (fun u => ends_with u dot_html) with
         | [u] => u.take 255
         | _ => index_html) := by
  have hstate : find_root_alias ⟨index_html, false⟩ urls =
      (match alias_loop urls 0 none with
       | (some u, _, _) => ⟨u.take 255, true⟩
       | (none, 1, some u) => ⟨u.take 255, true⟩
       | (none, _, _) => ⟨index_html, true⟩) := by
    unfold find_root_alias
    rw [if_neg (by simp), if_neg (by simp)]
  rw [hstate]
  cases hfind : urls.find? (fun u => decide (u = index_html ∨ u = slash)) with
  | some u =>
    have h1 := alias_loop_fst urls 0 none
    rw [hfind] at h1
    rcases hA : alias_loop urls 0 none with ⟨f, c, g⟩
    rw [hA] at h1
    simp only at h1
    subst h1
    simp
  | none =>
    have h2 := alias_loop_of_find_none urls 0 none hfind
    rw [h2]
    cases hf : urls.filter (fun u => ends_with u dot_html) with
    | nil => simp [lastOr]
    | cons a t =>
      cases t with
      | nil => simp [lastOr]
      | cons b t2 => simp [lastOr]

/-! ## Claim C3 -/

/-- C3 evaluation at a failing input: when the compression backend fails for
a file (`deflateInit2`/`deflate` does not succeed, modelled by the `compress`
parameter returning `none`), `emit_u8_gz_array` returns 0, `main` discards
that return value, emits no payload array for the file, still lists its url,
and the run completes with exit code 0 — it does not abort. -/
theorem c3_compression_failure_eval :
    (dir2statics (fun _ => List.replicate 20 0) (fun _ => none) slash
      [⟨strL "a.html", strL "x"⟩]).exitCode = 0 ∧
    (dir2statics (fun _ => List.replicate 20 0) (fun _ => none) slash
      [⟨strL "a.html", strL "x"⟩]).payloads = [none] ∧
    (dir2statics (fun _ => List.replicate 20 0) (fun _ => none) slash
      [⟨strL "a.html", strL "x"⟩]).urls = [strL "/a.html"] := by decide

/-! ## Claim C10 -/

theorem strip_query_no_q (p : List Char) : '?' ∉ strip_query p := by
  induction p with
  | nil => simp [strip_query]
  | cons c t ih =>
    by_cases h : c = '?'
    · simp [strip_query, h]
    · show '?' ∉ (if c = '?' then [] else c :: strip_query t)
      rw [if_neg h]
      intro hmem
      rcases List.mem_cons.mp hmem with h1 | h2
      · exact h h1.symm
      · exact ih h2

theorem strip_query_of_no_q (p : List Char) (h : '?' ∉ p) :
    strip_query p = p := by
  induction p with
  | nil => rfl
  | cons c t ih =>
    simp only [List.mem_cons, not_or] at h
    show (if c = '?' then [] else c :: strip_query t) = c :: t
    rw [if_neg (fun hc => h.1 hc.symm), ih h.2]

theorem findAsset_url (t : List AssetRecord) (u : List Char)
    (e : AssetRecord) (h : findAsset t u = some e) : e.url = u := by
  induction t with
  | nil => exact Option.noConfusion h
  | cons a rest ih =>
    by_cases ha : a.url = u
    · simp [findAsset, ha] at h
      rw [← h, ha]
    · simp [findAsset, ha] at h
      exact ih h

theorem findAsset_exists (t : List AssetRecord) (u : List Char)
    (h : ∃ e ∈ t, e.url = u) :
    ∃ r, findAsset t u = some r ∧ r.url = u := by
  induction t with
  | nil => simp at h
  | cons a rest ih =>
    by_cases ha : a.url = u
    · exact ⟨a, by simp [findAsset, ha], ha⟩
    · rcases h with ⟨e, he, hu⟩
      rcases List.mem_cons.mp he with rfl | hmem
      · exact absurd hu ha
      · rcases ih ⟨e, hmem, hu⟩ with ⟨r, hr, hru⟩
        exact ⟨r, by simp [findAsset, ha, hr], hru⟩

/-- C10: lookup truncates the query-stripped request path to 511 bytes (the
`tmp[512]` buffer): for a path whose query-stripped length is at least 512,
the lookup coincides with the lookup of the first 511 stripped bytes; an
entry whose url is longer than 511 bytes is never returned; and when some
entry's url equals the first 511 stripped bytes, the over-long path matches
an entry with exactly that url. -/
theorem c10_lookup_truncation (aliasv : List Char) (table : List AssetRecord)
    (path : List Char) (e : AssetRecord)
    (h512 : 512 ≤ (strip_query path).length)
    (hlong : 511 < e.url.length)
    (hmatch : ∃ r ∈ table, r.url = (strip_query path).take 511) :
    static_find_path aliasv table path =
        static_find_path aliasv table ((strip_query path).take 511) ∧
    static_find_path aliasv table path ≠ some e ∧
    (∃ r, static_find_path aliasv table path = some r ∧
      r.url = (strip_query path).take 511) := by
  have hne : path ≠ [] := by
    intro h
    rw [h] at h512
    simp [strip_query] at h512
  have hns : path ≠ slash := by
    intro h
    rw [h] at h512
    simp [slash, strL, strip_query] at h512
  have hlhs : static_find_path aliasv table path =
      findAsset table ((strip_query path).take 511) := by
    simp only [static_find_path]
    rw [if_neg hne, if_neg hns]
  have hlen2 : ((strip_query path).take 511).length = 511 := by
    rw [List.length_take]
    omega
  have hne2 : (strip_query path).take 511 ≠ [] := by
    intro h
    rw [h] at hlen2
    simp at hlen2
  have hns2 : (strip_query path).take 511 ≠ slash := by
    intro h
    rw [h] at hlen2
    simp [slash, strL] at hlen2
  have hsq2 : strip_query ((strip_query path).take 511) =
      (strip_query path).take 511 := by
    refine strip_query_of_no_q _ (fun hmem => ?_)
    exact strip_query_no_q path (List.mem_of_mem_take hmem)
  have hrhs : static_find_path aliasv table ((strip_query path).take 511) =
      findAsset table ((strip_query path).take 511) := by
    simp only [static_find_path]
    rw [if_neg hne2, if_neg hns2, hsq2,
      List.take_of_length_le (le_of_eq hlen2)]
  refine ⟨by rw [hlhs, hrhs], ?_, ?_⟩
  · intro hsome
    rw [hlhs] at hsome
    have := findAsset_url _ _ _ hsome
    have hle : e.url.length ≤ 511 := by
      rw [this]
      omega
    omega
  · rw [hlhs]
    exact findAsset_exists _ _ hmatch

/-! ## Claim C8 -/

theorem strcmpO_cons_cons (x y : Char) (xs ys : List Char) :
    strcmpO (x :: xs) (y :: ys) =
      if x < y then .lt else if y < x then .gt else strcmpO xs ys := rfl

theorem strcmpO_eq_iff (a : List Char) : ∀ b, strcmpO a b = .eq ↔ a = b := by
  induction a with
  | nil =>
    intro b
    cases b <;> simp [strcmpO]
  | cons x xs ih =>
    intro b
    cases b with
    | nil => simp [strcmpO]
    | cons y ys =>
      rw [strcmpO_cons_cons]
      split_ifs with h1 h2
      · constructor
        · intro h
          exact h.elim
        · rintro h
          rw [List.cons.injEq] at h
          exact absurd (h.1 ▸ h1) (lt_irrefl y)
      · constructor
        · intro h
          exact h.elim
        · rintro h
          rw [List.cons.injEq] at h
          exact absurd (h.1 ▸ h2) (lt_irrefl y)
      · have hxy : x = y := le_antisymm (not_lt.mp h2) (not_lt.mp h1)
        simp [List.cons.injEq, hxy, ih]

theorem leStr_trans_aux (a : List Char) :
    ∀ b c, leStr a b → leStr b c → leStr a c := by
  induction a with
  | nil =>
    intro b c _ _
    unfold leStr
    cases c <;> simp [strcmpO]
  | cons x xs ih =>
    intro b c hab hbc
    cases b with
    | nil => exact absurd rfl hab
    | cons y ys =>
      cases c with
      | nil => exact absurd rfl hbc
      | cons z zs =>
        unfold leStr at hab hbc ⊢
        rw [strcmpO_cons_cons] at hab hbc ⊢
        split_ifs with h1 h2
        · simp
        · exfalso
          split_ifs at hab with a1 a2
          · split_ifs at hbc with b1 b2
            · exact absurd (lt_trans a1 b1) h1
            · exact hbc rfl
            · exact absurd (lt_of_lt_of_le a1 (not_lt.mp b2)) h1
          · exact hab rfl
          · split_ifs at hbc with b1 b2
            · exact absurd (lt_of_le_of_lt (not_lt.mp a2) b1) h1
            · exact hbc rfl
            · exact absurd
                (lt_of_lt_of_le (lt_of_lt_of_le h2 (not_lt.mp a2)) (not_lt.mp b2))
                (lt_irrefl z)
        · split_ifs at hab with a1 a2
          · exfalso
            have hxz : x = z := le_antisymm (not_lt.mp h2) (not_lt.mp h1)
            apply hbc
            rw [if_neg (asymm (hxz ▸ a1)), if_pos (hxz ▸ a1)]
          · exact absurd rfl hab
          · have hxy : x = y := le_antisymm (not_lt.mp a2) (not_lt.mp a1)
            subst hxy
            split_ifs at hbc
            exact ih ys zs hab hbc

theorem leStr_total_aux (a : List Char) : ∀ b, leStr a b ∨ leStr b a := by
  induction a with
  | nil =>
    intro b
    left
    unfold leStr
    cases b <;> simp [strcmpO]
  | cons x xs ih =>
    intro b
    cases b with
    | nil =>
      right
      unfold leStr
      simp [strcmpO]
    | cons y ys =>
      unfold leStr
      rw [strcmpO_cons_cons, strcmpO_cons_cons]
      rcases lt_trichotomy x y with h | h | h
      · left
        simp [h, asymm h]
      · subst h
        simp only [lt_irrefl, if_false]
        exact ih ys
      · right
        simp [h, asymm h]

instance : IsTrans (List Char) leStr := ⟨leStr_trans_aux⟩

instance : IsTotal (List Char) leStr := ⟨leStr_total_aux⟩

theorem strcmpO_append (p : List Char) : ∀ a b,
    strcmpO (p ++ a) (p ++ b) = strcmpO a b := by
  induction p with
  | nil => intro a b; rfl
  | cons c t ih =>
    intro a b
    rw [List.cons_append, List.cons_append, strcmpO_cons_cons]
    simp [lt_irrefl, ih]

/-- C8: in every table the compiler generates, the url values are strictly
increasing (hence unique) in byte-wise lexicographic (`strcmp`) order for
all adjacent — in fact all — index pairs, provided the scanned directory
entries carry distinct names (`readdir` never repeats a name). -/
theorem c8_urls_strictly_sorted (sha1 : List Char → List Nat)
    (compress : List Char → Option (List Char))
    (pre0 : List Char) (files : List SrcFile)
    (hnodup : (files.map SrcFile.name).Nodup) :
    ((dir2statics sha1 compress pre0 files).urls).Pairwise ltStr := by
  have hfsub : ((files.filter
      (fun f => (content_type_for_filename f.name).isSome)).map
        SrcFile.name).Sublist (files.map SrcFile.name) :=
    (List.filter_sublist files).map SrcFile.name
  have hnd0 : ((files.filter
      (fun f => (content_type_for_filename f.name).isSome)).map
        SrcFile.name).Nodup := hnodup.sublist hfsub
  have hperm : List.Perm (includedNames files)
      ((files.filter (fun f => (content_type_for_filename f.name).isSome)).map
        SrcFile.name) := List.perm_insertionSort _ _
  have hnd : (includedNames files).Nodup := hperm.symm.nodup hnd0
  have hsorted : (includedNames files).Pairwise leStr :=
    List.sorted_insertionSort leStr _
  have hlt : (includedNames files).Pairwise ltStr := by
    refine (hsorted.and hnd).imp ?_
    intro a b hab
    rcases hcmp : strcmpO a b with _ | _ | _
    · exact hcmp
    · exact absurd ((strcmpO_eq_iff a b).mp hcmp) hab.2
    · exact absurd hcmp hab.1
  show ((includedNames files).map
    (fun n => (if pre0 = [] then slash else pre0) ++ n)).Pairwise ltStr
  refine hlt.map _ ?_
  intro a b hab
  unfold ltStr at hab ⊢
  rw [strcmpO_append]
  exact hab

/-- Witness for C8 on a two-file directory with distinct names. -/
theorem c8_urls_strictly_sorted_witness :
    (([⟨strL "b.html", strL "x"⟩, ⟨strL "a.css", strL "y"⟩] :
        List SrcFile).map SrcFile.name).Nodup ∧
    ((dir2statics (fun _ => List.replicate 20 0) (fun x => some x) slash
      [⟨strL "b.html", strL "x"⟩, ⟨strL "a.css", strL "y"⟩]).urls).Pairwise
        ltStr :=
  ⟨by decide,
    c8_urls_strictly_sorted (fun _ => List.replicate 20 0) (fun x => some x)
      slash [⟨strL "b.html", strL "x"⟩, ⟨strL "a.css", strL "y"⟩] (by decide)⟩

/-- Witness for C10 at a 512-byte path, a 511-byte stored url equal to its
first 511 bytes, and a 512-byte url that can never be matched. -/
theorem c10_lookup_truncation_witness :
    512 ≤ (strip_query (List.replicate 512 'a')).length ∧
    511 < (AssetRecord.mk (List.replicate 512 'b') [] []).url.length ∧
    (∃ r ∈ [AssetRecord.mk (List.replicate 511 'a') [] []],
      r.url = (strip_query (List.replicate 512 'a')).take 511) ∧
    (static_find_path index_html [AssetRecord.mk (List.replicate 511 'a') [] []]
        (List.replicate 512 'a') =
      static_find_path index_html [AssetRecord.mk (List.replicate 511 'a') [] []]
        ((strip_query (List.replicate 512 'a')).take 511) ∧
    static_find_path index_html [AssetRecord.mk (List.replicate 511 'a') [] []]
        (List.replicate 512 'a') ≠
      some (AssetRecord.mk (List.replicate 512 'b') [] []) ∧
    (∃ r, static_find_path index_html
        [AssetRecord.mk (List.replicate 511 'a') [] []]
        (List.replicate 512 'a') = some r ∧
      r.url = (strip_query (List.replicate 512 'a')).take 511)) := by
  have hsq : strip_query (List.replicate 512 'a') = List.replicate 512 'a' :=
    strip_query_of_no_q _ (by rw [List.mem_replicate]; decide)
  have h512 : 512 ≤ (strip_query (List.replicate 512 'a')).length := by
    rw [hsq, List.length_replicate]
  have hlong : 511 < (AssetRecord.mk (List.replicate 512 'b') [] []).url.length := by
    show 511 < (List.replicate 512 'b').length
    rw [List.length_replicate]
    omega
  have hmatch : ∃ r ∈ [AssetRecord.mk (List.replicate 511 'a') [] []],
      r.url = (strip_query (List.replicate 512 'a')).take 511 := by
    refine ⟨AssetRecord.mk (List.replicate 511 'a') [] [],
      List.mem_singleton.mpr rfl, ?_⟩
    rw [hsq, List.take_replicate, show (511 ⊓ 512 : Nat) = 511 from by norm_num]
  exact ⟨h512, hlong, hmatch,
    c10_lookup_truncation index_html _ _ _ h512 hlong hmatch⟩

/-! ## Claim C7 -/

theorem begMatchCI_of_lower_eq (n : List Char) : ∀ h rest,
    n.map toLowerC = h.map toLowerC → begMatchCI n (h ++ rest) = true := by
  induction n with
  | nil => intro h rest _; rfl
  | cons c cs ih =>
    intro h rest heq
    cases h with
    | nil => simp at heq
    | cons d ds =>
      simp only [List.map_cons, List.cons.injEq] at heq
      show ((toLowerC d == toLowerC c) && begMatchCI cs (ds ++ rest)) = true
      rw [heq.1, ih ds rest heq.2]
      simp

theorem findSubCI_zero (hay nee : List Char)
    (h : begMatchCI nee hay = true) : findSubCI hay nee = some 0 := by
  unfold findSubCI
  rw [h]
  cases hay <;> rfl

theorem findSubCI_single_after (q : Char) (rest : List Char) :
    ∀ l, (∀ c ∈ l, (toLowerC c == toLowerC q) = false) →
      findSubCI (l ++ q :: rest) [q] = some l.length := by
  intro l
  induction l with
  | nil =>
    intro _
    apply findSubCI_zero
    show ((toLowerC q == toLowerC q) && true) = true
    simp
  | cons c t ih =>
    intro hall
    have hc : (toLowerC c == toLowerC q) = false := hall c (by simp)
    have hbeg : begMatchCI [q] (c :: (t ++ q :: rest)) = false := by
      show ((toLowerC c == toLowerC q) && true) = false
      rw [hc]
      rfl
    show findSubCI ((c :: t) ++ q :: rest) [q] = some (t.length + 1)
    rw [List.cons_append]
    unfold findSubCI
    rw [hbeg]
    simp only [Bool.false_eq_true, if_false]
    rw [ih (fun x hx => hall x (by simp [hx]))]
    rfl

theorem hexRender_length (d : List Nat) : (hexRender d).length = 2 * d.length := by
  induction d with
  | nil => rfl
  | cons b t ih =>
    show (hexDigit (b / 16) :: hexDigit (b % 16) :: hexRender t).length = _
    simp only [List.length_cons, ih, List.length_cons]
    omega

theorem hexDigit_mem_table (n : Nat) : hexDigit n ∈ strL "0123456789ABCDEF" := by
  unfold hexDigit
  split <;> decide

theorem hexDigit_lower_ne_quote (n : Nat) :
    (toLowerC (hexDigit n) == toLowerC '"') = false := by
  unfold hexDigit
  split <;> decide

theorem mem_hexRender (c : Char) (d : List Nat) (h : c ∈ hexRender d) :
    ∃ n, c = hexDigit n := by
  rcases List.mem_flatMap.mp h with ⟨b, _, hc⟩
  rcases List.mem_cons.mp hc with rfl | hc2
  · exact ⟨b / 16, rfl⟩
  · rcases List.mem_cons.mp hc2 with rfl | hc3
    · exact ⟨b % 16, rfl⟩
    · simp at hc3

theorem gcb_of_finds (buffer s e : List Char) (j : Nat)
    (h1 : findSubCI buffer s = some 0)
    (h2 : findSubCI (buffer.drop (0 + s.length)) e = some j) :
    get_content_between buffer s e = some (buffer.drop (0 + s.length), j) := by
  unfold get_content_between
  rw [h1]
  show (match findSubCI (buffer.drop (0 + s.length)) e with
        | none => none
        | some j => some (buffer.drop (0 + s.length), j)) =
      some (buffer.drop (0 + s.length), j)
  rw [h2]

theorem etagTok_mkCustomHeader (digest : List Nat) (mime : List Char)
    (h20 : digest.length = 20) :
    etagTok (mkCustomHeader digest mime) = some (hexRender digest) := by
  have hhex : (hexRender digest).length = 40 := by
    rw [hexRender_length, h20]
  have hshape : mkCustomHeader digest mime =
      strL "Etag: \"" ++ (hexRender digest ++ '"' ::
        (strL "\r\n" ++ (strL "Content-Encoding: gzip\r\n"
          ++ strL "Content-Type: " ++ mime ++ strL "\r\n"))) := by
    unfold mkCustomHeader
    rw [show (strL "\"\r\n") = '"' :: strL "\r\n" from rfl]
    simp [List.append_assoc]
  have hfind1 : findSubCI (mkCustomHeader digest mime) (strL "etag: \"") =
      some 0 := by
    rw [hshape]
    apply findSubCI_zero
    exact begMatchCI_of_lower_eq _ _ _ (by decide)
  have hdrop : (mkCustomHeader digest mime).drop (0 + (strL "etag: \"").length) =
      hexRender digest ++ '"' :: (strL "\r\n" ++ (strL "Content-Encoding: gzip\r\n"
        ++ strL "Content-Type: " ++ mime ++ strL "\r\n")) := by
    rw [hshape, show (0 + (strL "etag: \"").length) = (strL "Etag: \"").length from rfl,
      List.drop_left]
  have hfind2 : findSubCI ((mkCustomHeader digest mime).drop
      (0 + (strL "etag: \"").length)) (strL "\"") = some 40 := by
    rw [hdrop, show (strL "\"") = ['"'] from rfl, ← hhex]
    apply findSubCI_single_after
    intro c hc
    rcases mem_hexRender c _ hc with ⟨n, rfl⟩
    exact hexDigit_lower_ne_quote n
  unfold etagTok
  rw [gcb_of_finds _ _ _ 40 hfind1 hfind2]
  show (if (40 : Nat) = 40 then
      some (((mkCustomHeader digest mime).drop
        (0 + (strL "etag: \"").length)).take 40) else none) =
    some (hexRender digest)
  rw [if_pos rfl, hdrop]
  congr 1
  rw [← hhex, List.take_left]

/-- C7: for every included file, the emitted custom-headers string carries a
validator that the runtime extractor recovers as exactly the 40-character
hex rendering (one consistent, uppercase alphabet) of the 20-byte SHA-1
digest of the file's original bytes; and the emitted custom-header strings
are identical for any two compression backends, so the validator is computed
over the pre-compression bytes and is independent of the compression step. -/
theorem c7_validator_40hex_precompression (sha1 : List Char → List Nat)
    (compress compress2 : List Char → Option (List Char))
    (pre0 : List Char) (files : List SrcFile)
    (h20 : ∀ d, (sha1 d).length = 20) :
    (dir2statics sha1 compress pre0 files).contentTypes =
      (dir2statics sha1 compress2 pre0 files).contentTypes ∧
    ∀ ct ∈ (dir2statics sha1 compress pre0 files).contentTypes,
      ∃ n ∈ includedNames files,
        etagTok ct = some (hexRender (sha1 (fileContent files n))) ∧
        (hexRender (sha1 (fileContent files n))).length = 40 ∧
        ∀ c ∈ hexRender (sha1 (fileContent files n)),
          c ∈ strL "0123456789ABCDEF" := by
  constructor
  · rfl
  · intro ct hct
    have hct2 : ct ∈ (includedNames files).map (fun n =>
        mkCustomHeader (sha1 (fileContent files n))
          ((content_type_for_filename n).getD [])) := hct
    rcases List.mem_map.mp hct2 with ⟨n, hn, rfl⟩
    refine ⟨n, hn, etagTok_mkCustomHeader _ _ (h20 _), ?_, ?_⟩
    · rw [hexRender_length, h20]
    · intro c hc
      rcases mem_hexRender c _ hc with ⟨m, rfl⟩
      exact hexDigit_mem_table m

/-- Witness for C7 with a constant SHA-1 stub and two distinct compression
backends (one failing, one identity). -/
theorem c7_validator_40hex_precompression_witness :
    (∀ d, ((fun _ : List Char => List.replicate 20 (0 : Nat)) d).length = 20) ∧
    ((dir2statics (fun _ => List.replicate 20 0) (fun _ => none) slash
        [⟨strL "a.html", strL "x"⟩]).contentTypes =
      (dir2statics (fun _ => List.replicate 20 0) (fun x => some x) slash
        [⟨strL "a.html", strL "x"⟩]).contentTypes ∧
    ∀ ct ∈ (dir2statics (fun _ => List.replicate 20 0) (fun _ => none) slash
        [⟨strL "a.html", strL "x"⟩]).contentTypes,
      ∃ n ∈ includedNames [⟨strL "a.html", strL "x"⟩],
        etagTok ct = some (hexRender ((fun _ : List Char =>
          List.replicate 20 (0 : Nat)) (fileContent [⟨strL "a.html", strL "x"⟩] n))) ∧
        (hexRender ((fun _ : List Char => List.replicate 20 (0 : Nat))
          (fileContent [⟨strL "a.html", strL "x"⟩] n))).length = 40 ∧
        ∀ c ∈ hexRender ((fun _ : List Char => List.replicate 20 (0 : Nat))
          (fileContent [⟨strL "a.html", strL "x"⟩] n)),
          c ∈ strL "0123456789ABCDEF") :=
  ⟨fun _ => List.length_replicate 20 0,
    c7_validator_40hex_precompression (fun _ => List.replicate 20 0)
      (fun _ => none) (fun x => some x) slash [⟨strL "a.html", strL "x"⟩]
      (fun _ => List.length_replicate 20 0)⟩

/-! ## Claim C4 -/

/-- C4 counterexample: for a concrete one-file input, the emitted
custom-headers string is the `Etag:` line, then the `Content-Encoding:`
line, then a tagged `Content-Type:` line carrying the MIME type — not, as
the claim states, the bare MIME type followed by CRLF with the `Etag:` and
`Content-Encoding:` lines after it. -/
theorem c4_layout_counterexample :
    (dir2statics (fun _ => List.replicate 20 0) (fun x => some x) slash
      [⟨strL "a.html", strL "hi"⟩]).contentTypes =
      [strL "Etag: \"0000000000000000000000000000000000000000\"\r\nContent-Encoding: gzip\r\nContent-Type: text/html; charset=utf-8\r\n"] ∧
    strL "Etag: \"0000000000000000000000000000000000000000\"\r\nContent-Encoding: gzip\r\nContent-Type: text/html; charset=utf-8\r\n" ≠
      strL "text/html; charset=utf-8\r\nEtag: \"0000000000000000000000000000000000000000\"\r\nContent-Encoding: gzip\r\n" := by
  decide

/-- C4 amended: for every file the compiler includes, the emitted record has
`url = prefix + filename` (an empty prefix defaulting to `/`), a
`contentType` string consisting of the line `Etag: "<40-hex-validator>"`,
then the line `Content-Encoding: gzip`, then the line
`Content-Type: <MIME type>`, each CRLF-terminated — the MIME type comes
last, tagged, rather than first and bare — and a payload that is the
compression of the file bytes. -/
theorem c4_record_layout_amended (sha1 : List Char → List Nat)
    (compress : List Char → Option (List Char))
    (pre0 : List Char) (files : List SrcFile) :
    (dir2statics sha1 compress pre0 files).urls =
      (includedNames files).map
        (fun n => (if pre0 = [] then slash else pre0) ++ n) ∧
    (dir2statics sha1 compress pre0 files).contentTypes =
      (includedNames files).map (fun n =>
        strL "Etag: \"" ++ hexRender (sha1 (fileContent files n)) ++ strL "\"\r\n"
          ++ strL "Content-Encoding: gzip\r\n" ++ strL "Content-Type: "
          ++ ((content_type_for_filename n).getD []) ++ strL "\r\n") ∧
    (dir2statics sha1 compress pre0 files).payloads =
      (includedNames files).map (fun n => compress (fileContent files n)) := by
  refine ⟨rfl, ?_, ?_⟩
  · show (includedNames files).map (fun n =>
        mkCustomHeader (sha1 (fileContent files n))
          ((content_type_for_filename n).getD [])) = _
    apply List.map_congr_left
    intro n _
    unfold mkCustomHeader
    simp [List.append_assoc]
  · show (includedNames files).map (fun n =>
        (emit_u8_gz_array compress (fileContent files n)).1) = _
    apply List.map_congr_left
    intro n _
    unfold emit_u8_gz_array
    cases compress (fileContent files n) <;> rfl

/-! ## Responder lemmas -/

theorem hsr_inv (code : Nat) (ct : Option (List Char))
    (body : Option (List Char)) (len : Nat) (r : Response)
    (h : http_send_response code ct body len = some r) :
    r.code = code ∧ r.customHdrs = mkCustomHdrs ct ∧
    r.contentLength = len ∧ r.body = bodyBytes body len := by
  unfold http_send_response at h
  split_ifs at h
  rw [← Option.some.inj h]
  exact ⟨rfl, rfl, rfl, rfl⟩

theorem bodyBytes_full (b : List Char) : bodyBytes (some b) b.length = b := by
  show (if b.length = 0 then [] else b.take b.length) = b
  by_cases hb : b.length = 0
  · rw [if_pos hb, (List.length_eq_zero.mp hb).symm]
  · rw [if_neg hb, List.take_length]

theorem hsr_msg_len (code : Nat) (msg : List Char) (r : Response)
    (h : http_send_response code none (some msg) msg.length = some r) :
    r.body.length = r.contentLength := by
  rcases hsr_inv _ _ _ _ _ h with ⟨-, -, hlen, hbody⟩
  rw [hbody, hlen, bodyBytes_full]

theorem findSub_append_isSome (a : List Char) (b nee : List Char)
    (h : (findSub b nee).isSome = true) :
    (findSub (a ++ b) nee).isSome = true := by
  induction a with
  | nil => exact h
  | cons c t ih =>
    rw [List.cons_append]
    unfold findSub
    by_cases hb : begMatch nee (c :: (t ++ b)) = true
    · rw [if_pos hb]
      rfl
    · rw [if_neg hb]
      show ((findSub (t ++ b) nee).map (fun n => n + 1)).isSome = true
      cases hfs : findSub (t ++ b) nee with
      | none => rw [hfs] at ih; exact absurd ih (by simp)
      | some n => rfl

theorem findChar_append_of_none (m : List Char) (x : Char) (rest : List Char)
    (h : findChar m x = none) :
    findChar (m ++ x :: rest) x = some m.length := by
  induction m with
  | nil =>
    show (if x = x then some 0 else _) = some 0
    rw [if_pos rfl]
  | cons c t ih =>
    by_cases hc : c = x
    · rw [show findChar (c :: t) x = some 0 from by
        unfold findChar; rw [if_pos hc]] at h
      exact Option.noConfusion h
    · have ht : findChar t x = none := by
        unfold findChar at h
        rw [if_neg hc] at h
        cases hft : findChar t x with
        | none => rfl
        | some n => rw [hft] at h; exact Option.noConfusion h
      rw [List.cons_append]
      unfold findChar
      rw [if_neg hc, ih ht]
      rfl

theorem parse_method_space (m rest : List Char) (hm : findChar m ' ' = none) :
    http_parse_request_line (m ++ ' ' :: rest) =
      (parse_rest rest).map (fun ph => (m, ph.1, ph.2)) := by
  unfold http_parse_request_line
  rw [findChar_append_of_none m ' ' rest hm]
  have htake : (m ++ ' ' :: rest).take m.length = m := by
    have := List.take_left m (' ' :: rest)
    exact this
  have hdrop : (m ++ ' ' :: rest).drop (m.length + 1) = rest := by
    rw [show m ++ ' ' :: rest = (m ++ [' ']) ++ rest from by simp,
      show m.length + 1 = (m ++ [' ']).length from by simp,
      List.drop_left]
  show (parse_rest ((m ++ ' ' :: rest).drop (m.length + 1))).map
      (fun ph => ((m ++ ' ' :: rest).take m.length, ph.1, ph.2)) = _
  rw [htake, hdrop]

/-- The rendered header does not depend on the body field. -/
theorem render_header_mk (code : Nat) (custom : List Char) (len : Nat)
    (b : List Char) :
    render_header ⟨code, custom, len, b⟩ = render_header ⟨code, custom, len, []⟩ :=
  rfl

/-! ## Claim C5 -/

/-- C5 counterexample: for a HEAD request to an entry with a 4-byte payload,
the response carries `Content-Length: 4` while zero body bytes are sent —
the claim's required `Content-Length` of 0 for HEAD does not hold. -/
theorem c5_content_length_counterexample :
    ((serve_static_http index_html
        [⟨strL "/a", strL "text/html", strL "BODY"⟩]
        (strL "HEAD /a HTTP/1.1\r\n\r\n")).map
      (fun r => (r.contentLength, r.body))) = some (4, []) ∧ (4 : Nat) ≠ 0 := by
  decide

/-- C5 amended: in every response the responder assembles, the
`Content-Length` value equals the number of body bytes actually sent,
except for HEAD and 304 responses, which send zero body bytes while
declaring the stored payload size of the matched entry as `Content-Length`
(not 0). -/
theorem c5_content_length_amended (aliasv : List Char)
    (table : List AssetRecord) (req : List Char) (r : Response)
    (h : serve_static_http aliasv table req = some r) :
    r.body.length = r.contentLength ∨
    (r.body = [] ∧ (r.code = 200 ∨ r.code = 304) ∧
      ∃ m p hdrs entry, http_parse_request_line req = some (m, p, hdrs) ∧
        static_find_path aliasv table p = some entry ∧
        r.contentLength = entry.content.length) := by
  unfold serve_static_http at h
  by_cases h1 : (findSub req (strL "\r\n\r\n")).isSome = false
  · rw [if_pos h1] at h
    exact Or.inl (hsr_msg_len _ _ _ h)
  · rw [if_neg h1] at h
    cases hp : http_parse_request_line req with
    | none =>
      rw [hp] at h
      simp only [serve_parsed] at h
      exact Or.inl (hsr_msg_len _ _ _ h)
    | some mph =>
      obtain ⟨m, p, hdrs⟩ := mph
      rw [hp] at h
      simp only [serve_parsed] at h
      by_cases hm : m ≠ strL "GET" ∧ m ≠ strL "HEAD"
      · rw [if_pos hm] at h
        exact Or.inl (hsr_msg_len _ _ _ h)
      · rw [if_neg hm] at h
        cases hf : static_find_path aliasv table p with
        | none =>
          rw [hf] at h
          simp only [serve_looked_up] at h
          exact Or.inl (hsr_msg_len _ _ _ h)
        | some entry =>
          rw [hf] at h
          simp only [serve_looked_up] at h
          unfold serve_found at h
          by_cases hneg : negotiate entry hdrs = true
          · rw [if_pos hneg] at h
            rcases hsr_inv _ _ _ _ _ h with ⟨hcode, -, hlen, hbody⟩
            refine Or.inr ⟨?_, Or.inr hcode, m, p, hdrs, entry, rfl, hf, hlen⟩
            rw [hbody]
            rfl
          · rw [if_neg hneg] at h
            by_cases hhead : m = strL "HEAD"
            · rw [if_pos hhead] at h
              rcases hsr_inv _ _ _ _ _ h with ⟨hcode, -, hlen, hbody⟩
              refine Or.inr ⟨?_, Or.inl hcode, m, p, hdrs, entry, rfl, hf, hlen⟩
              rw [hbody]
              rfl
            · rw [if_neg hhead] at h
              rcases hsr_inv _ _ _ _ _ h with ⟨-, -, hlen, hbody⟩
              refine Or.inl ?_
              rw [hbody, hlen, bodyBytes_full]

/-- Witness for C5 at a GET request that produces a 200 with a body. -/
theorem c5_content_length_amended_witness :
    ∃ r, serve_static_http index_html
        [⟨strL "/a", strL "text/html", strL "BODY"⟩]
        (strL "GET /a HTTP/1.1\r\n\r\n") = some r ∧
      (r.body.length = r.contentLength ∨
       (r.body = [] ∧ (r.code = 200 ∨ r.code = 304) ∧
        ∃ m p hdrs entry,
          http_parse_request_line (strL "GET /a HTTP/1.1\r\n\r\n") =
            some (m, p, hdrs) ∧
          static_find_path index_html
            [⟨strL "/a", strL "text/html", strL "BODY"⟩] p = some entry ∧
          r.contentLength = entry.content.length)) := by
  have hr : serve_static_http index_html
      [⟨strL "/a", strL "text/html", strL "BODY"⟩]
      (strL "GET /a HTTP/1.1\r\n\r\n") =
      some ⟨200, strL "Cache-Control: no-cache\r\nContent-Type: text/html\r\n",
        4, strL "BODY"⟩ := by decide
  exact ⟨_, hr, c5_content_length_amended _ _ _ _ hr⟩

theorem serve_eq_serve_found (aliasv : List Char) (table : List AssetRecord)
    (req m p hdrs : List Char) (entry : AssetRecord)
    (hterm : (findSub req (strL "\r\n\r\n")).isSome = true)
    (hparse : http_parse_request_line req = some (m, p, hdrs))
    (hm : m = strL "GET" ∨ m = strL "HEAD")
    (hfind : static_find_path aliasv table p = some entry) :
    serve_static_http aliasv table req = serve_found m entry hdrs := by
  unfold serve_static_http
  rw [if_neg (by rw [hterm]; simp), hparse]
  simp only [serve_parsed]
  have hmguard : ¬(m ≠ strL "GET" ∧ m ≠ strL "HEAD") := by
    rcases hm with rfl | rfl
    · exact fun hc => hc.1 rfl
    · exact fun hc => hc.2 rfl
  rw [if_neg hmguard, hfind]
  rfl

theorem negotiate_of_tok (entry : AssetRecord) (hdrs tok : List Char)
    (htok : etagTok entry.contentType = some tok) :
    negotiate entry hdrs =
      match get_content_between hdrs (strL "if-none-match:") tok with
      | none => false
      | some (_, gap) => decide (gap < 5) := by
  unfold negotiate
  rw [htok]

theorem gcb_some_iff (buffer s e c : List Char) (j : Nat) :
    get_content_between buffer s e = some (c, j) ↔
      ∃ i, findSubCI buffer s = some i ∧ c = buffer.drop (i + s.length) ∧
        findSubCI (buffer.drop (i + s.length)) e = some j := by
  unfold get_content_between
  cases hf : findSubCI buffer s with
  | none =>
    constructor
    · intro h
      exact Option.noConfusion h
    · rintro ⟨i, hi, -, -⟩
      exact Option.noConfusion hi
  | some i0 =>
    show (match findSubCI (buffer.drop (i0 + s.length)) e with
          | none => none
          | some j => some (buffer.drop (i0 + s.length), j)) = some (c, j) ↔ _
    cases hg : findSubCI (buffer.drop (i0 + s.length)) e with
    | none =>
      constructor
      · intro h
        exact Option.noConfusion h
      · rintro ⟨i, hi, hc, hj⟩
        have hii : i = i0 := (Option.some.inj hi).symm
        subst hii
        rw [hg] at hj
        exact Option.noConfusion hj
    | some j0 =>
      constructor
      · intro h
        have h2 := Option.some.inj h
        refine ⟨i0, rfl, (congrArg Prod.fst h2).symm, ?_⟩
        rw [hg]
        exact congrArg (fun x => some x.2) h2
      · rintro ⟨i, hi, hc, hj⟩
        have hii : i = i0 := (Option.some.inj hi).symm
        subst hii
        rw [hg] at hj
        have hjj := Option.some.inj hj
        subst hjj
        rw [hc]

/-! ## Claim C1 -/

/-- C1 counterexample: the request's `If-None-Match` value contains the
entry's exact 40-character validator token (after a first, different quoted
value), yet the served response is 200 with the full body, not 304 — the
code additionally requires the token to start less than 5 bytes after the
colon. -/
theorem c1_conditional_get_counterexample :
    (findSub (strL "If-None-Match: \"zzzzz\", \"" ++ List.replicate 40 'A'
        ++ strL "\"\r\n\r\n") (List.replicate 40 'A')).isSome = true ∧
    ((serve_static_http index_html
        [⟨strL "/a",
          strL "Etag: \"" ++ List.replicate 40 'A'
            ++ strL "\"\r\nContent-Type: text/html\r\n",
          strL "BODY"⟩]
        (strL "GET /a HTTP/1.1\r\nIf-None-Match: \"zzzzz\", \""
          ++ List.replicate 40 'A' ++ strL "\"\r\n\r\n")).map
      (fun r => (r.code, r.body))) = some (200, strL "BODY") := by
  set_option maxRecDepth 4000 in decide

/-- C1 amended: for a GET request that reaches a table entry carrying a
40-character ETag token, the response (when the header fits the buffer) is
either 304 or 200 with the entry's content-type/cache headers; it is 304
precisely when the header block contains `if-none-match:`
(case-insensitively) and the first case-insensitive occurrence of the full
40-character token after it starts less than 5 bytes after the colon; a 304
has no body, and when the token does not occur there within that window the
response is 200 with the full body.  Partial or prefix matches of the token
never trigger a 304, but matching is case-insensitive and ignores where the
`If-None-Match` value ends. -/
theorem c1_conditional_get_amended (aliasv : List Char)
    (table : List AssetRecord) (req m p hdrs : List Char)
    (entry : AssetRecord) (tok : List Char)
    (hterm : (findSub req (strL "\r\n\r\n")).isSome = true)
    (hparse : http_parse_request_line req = some (m, p, hdrs))
    (hm : m = strL "GET")
    (hfind : static_find_path aliasv table p = some entry)
    (htok : etagTok entry.contentType = some tok) :
    ∀ r, serve_static_http aliasv table req = some r →
      (r.code = 304 ∨ r.code = 200) ∧
      r.customHdrs = mkCustomHdrs (some entry.contentType) ∧
      r.contentLength = entry.content.length ∧
      (r.code = 304 ↔ ∃ i g,
        findSubCI hdrs (strL "if-none-match:") = some i ∧
        findSubCI (hdrs.drop (i + (strL "if-none-match:").length)) tok =
          some g ∧ g < 5) ∧
      (r.code = 304 → r.body = []) ∧
      (r.code = 200 → r.body = entry.content) := by
  subst hm
  intro r hr
  rw [serve_eq_serve_found aliasv table req _ p hdrs entry hterm hparse
    (Or.inl rfl) hfind] at hr
  unfold serve_found at hr
  rw [negotiate_of_tok entry hdrs tok htok] at hr
  cases hgcb : get_content_between hdrs (strL "if-none-match:") tok with
  | none =>
    rw [hgcb] at hr
    rw [show (match (none : Option (List Char × Nat)) with
        | none => false
        | some (_, gap) => decide (gap < 5)) = false from rfl] at hr
    rw [if_neg (by simp)] at hr
    rw [if_neg (show ¬ strL "GET" = strL "HEAD" from by decide)] at hr
    rcases hsr_inv _ _ _ _ _ hr with ⟨hcode, hcust, hlen, hbody⟩
    refine ⟨Or.inr hcode, hcust, hlen, ?_, ?_, ?_⟩
    · constructor
      · intro h304
        rw [hcode] at h304
        exact absurd h304 (by decide)
      · rintro ⟨i, g, hi, hg, -⟩
        have hsome := (gcb_some_iff hdrs (strL "if-none-match:") tok
          (hdrs.drop (i + (strL "if-none-match:").length)) g).mpr ⟨i, hi, rfl, hg⟩
        exact Option.noConfusion (hsome.symm.trans hgcb)
    · intro h304
      rw [hcode] at h304
      exact absurd h304 (by decide)
    · intro _
      rw [hbody]
      exact bodyBytes_full _
  | some cg =>
    obtain ⟨c, g⟩ := cg
    rw [hgcb] at hr
    rw [show (match (some (c, g) : Option (List Char × Nat)) with
        | none => false
        | some (_, gap) => decide (gap < 5)) = decide (g < 5) from rfl] at hr
    by_cases hg5 : g < 5
    · rw [if_pos (decide_eq_true hg5)] at hr
      rcases hsr_inv _ _ _ _ _ hr with ⟨hcode, hcust, hlen, hbody⟩
      rcases (gcb_some_iff hdrs (strL "if-none-match:") tok c g).mp hgcb with
        ⟨i, hi, -, hj⟩
      refine ⟨Or.inl hcode, hcust, hlen, ?_, ?_, ?_⟩
      · exact ⟨fun _ => ⟨i, g, hi, hj, hg5⟩, fun _ => hcode⟩
      · intro _
        rw [hbody]
        rfl
      · intro h200
        rw [hcode] at h200
        exact absurd h200 (by decide)
    · rw [if_neg (by simp [hg5])] at hr
      rw [if_neg (show ¬ strL "GET" = strL "HEAD" from by decide)] at hr
      rcases hsr_inv _ _ _ _ _ hr with ⟨hcode, hcust, hlen, hbody⟩
      rcases (gcb_some_iff hdrs (strL "if-none-match:") tok c g).mp hgcb with
        ⟨i0, hi0, -, hj0⟩
      refine ⟨Or.inr hcode, hcust, hlen, ?_, ?_, ?_⟩
      · constructor
        · intro h304
          rw [hcode] at h304
          exact absurd h304 (by decide)
        · rintro ⟨i, g2, hi, hg2, hlt⟩
          have hii : i = i0 := Option.some.inj (hi.symm.trans hi0)
          subst hii
          have hgg : g2 = g := Option.some.inj (hg2.symm.trans hj0)
          subst hgg
          exact absurd hlt hg5
      · intro h304
        rw [hcode] at h304
        exact absurd h304 (by decide)
      · intro _
        rw [hbody]
        exact bodyBytes_full _

set_option maxRecDepth 8000 in
/-- Witness for C1 on a request whose `If-None-Match` token sits right after
the colon (gap below 5), so the negotiation succeeds. -/
theorem c1_conditional_get_amended_witness :
    (findSub (strL "GET /a HTTP/1.1\r\nIf-None-Match: \""
        ++ List.replicate 40 'A' ++ strL "\"\r\n\r\n")
      (strL "\r\n\r\n")).isSome = true ∧
    http_parse_request_line (strL "GET /a HTTP/1.1\r\nIf-None-Match: \""
        ++ List.replicate 40 'A' ++ strL "\"\r\n\r\n") =
      some (strL "GET", strL "/a",
        strL "If-None-Match: \"" ++ List.replicate 40 'A' ++ strL "\"\r\n\r\n") ∧
    static_find_path index_html
      [⟨strL "/a",
        strL "Etag: \"" ++ List.replicate 40 'A'
          ++ strL "\"\r\nContent-Type: text/html\r\n", strL "BODY"⟩]
      (strL "/a") =
      some ⟨strL "/a",
        strL "Etag: \"" ++ List.replicate 40 'A'
          ++ strL "\"\r\nContent-Type: text/html\r\n", strL "BODY"⟩ ∧
    etagTok (AssetRecord.mk (strL "/a")
        (strL "Etag: \"" ++ List.replicate 40 'A'
          ++ strL "\"\r\nContent-Type: text/html\r\n")
        (strL "BODY")).contentType = some (List.replicate 40 'A') ∧
    (∀ r, serve_static_http index_html
        [⟨strL "/a",
          strL "Etag: \"" ++ List.replicate 40 'A'
            ++ strL "\"\r\nContent-Type: text/html\r\n", strL "BODY"⟩]
        (strL "GET /a HTTP/1.1\r\nIf-None-Match: \""
          ++ List.replicate 40 'A' ++ strL "\"\r\n\r\n") = some r →
      (r.code = 304 ∨ r.code = 200) ∧
      r.customHdrs = mkCustomHdrs (some (AssetRecord.mk (strL "/a")
        (strL "Etag: \"" ++ List.replicate 40 'A'
          ++ strL "\"\r\nContent-Type: text/html\r\n")
        (strL "BODY")).contentType) ∧
      r.contentLength = (AssetRecord.mk (strL "/a")
        (strL "Etag: \"" ++ List.replicate 40 'A'
          ++ strL "\"\r\nContent-Type: text/html\r\n")
        (strL "BODY")).content.length ∧
      (r.code = 304 ↔ ∃ i g,
        findSubCI (strL "If-None-Match: \"" ++ List.replicate 40 'A'
          ++ strL "\"\r\n\r\n") (strL "if-none-match:") = some i ∧
        findSubCI ((strL "If-None-Match: \"" ++ List.replicate 40 'A'
          ++ strL "\"\r\n\r\n").drop (i + (strL "if-none-match:").length))
          (List.replicate 40 'A') = some g ∧ g < 5) ∧
      (r.code = 304 → r.body = []) ∧
      (r.code = 200 → r.body = (AssetRecord.mk (strL "/a")
        (strL "Etag: \"" ++ List.replicate 40 'A'
          ++ strL "\"\r\nContent-Type: text/html\r\n")
        (strL "BODY")).content)) :=
  ⟨by decide, by decide, by decide, by decide,
    c1_conditional_get_amended index_html
      [⟨strL "/a",
        strL "Etag: \"" ++ List.replicate 40 'A'
          ++ strL "\"\r\nContent-Type: text/html\r\n", strL "BODY"⟩]
      (strL "GET /a HTTP/1.1\r\nIf-None-Match: \""
        ++ List.replicate 40 'A' ++ strL "\"\r\n\r\n")
      (strL "GET") (strL "/a")
      (strL "If-None-Match: \"" ++ List.replicate 40 'A' ++ strL "\"\r\n\r\n")
      ⟨strL "/a",
        strL "Etag: \"" ++ List.replicate 40 'A'
          ++ strL "\"\r\nContent-Type: text/html\r\n", strL "BODY"⟩
      (List.replicate 40 'A')
      (by decide) (by decide) rfl (by decide) (by decide)⟩

/-! ## Claim C6 -/

set_option maxHeartbeats 1600000 in
/-- C6: a HEAD request to a path present in the table yields the same status
code and the same rendered header block (hence the same status line and
headers, including `Content-Length` equal to the stored payload size) as the
GET request with the same remainder, but with zero body bytes; when the GET
yields a 200 its body length equals that declared `Content-Length`. -/
theorem c6_head_parity (aliasv : List Char) (table : List AssetRecord)
    (rest p hdrs : List Char) (entry : AssetRecord)
    (hterm : (findSub rest (strL "\r\n\r\n")).isSome = true)
    (hpr : parse_rest rest = some (p, hdrs))
    (hfind : static_find_path aliasv table p = some entry) :
    (serve_static_http aliasv table (strL "GET " ++ rest) = none ∧
     serve_static_http aliasv table (strL "HEAD " ++ rest) = none) ∨
    (∃ rG rH, serve_static_http aliasv table (strL "GET " ++ rest) = some rG ∧
      serve_static_http aliasv table (strL "HEAD " ++ rest) = some rH ∧
      rG.code = rH.code ∧ rG.customHdrs = rH.customHdrs ∧
      render_header rG = render_header rH ∧
      rH.body = [] ∧ rH.contentLength = entry.content.length ∧
      (rG.code = 200 → rG.body.length = rH.contentLength)) := by
  have hparseG : http_parse_request_line (strL "GET " ++ rest) =
      some (strL "GET", p, hdrs) := by
    rw [show strL "GET " ++ rest = strL "GET" ++ ' ' :: rest from rfl,
      parse_method_space _ _ (by decide), hpr]
    rfl
  have hparseH : http_parse_request_line (strL "HEAD " ++ rest) =
      some (strL "HEAD", p, hdrs) := by
    rw [show strL "HEAD " ++ rest = strL "HEAD" ++ ' ' :: rest from rfl,
      parse_method_space _ _ (by decide), hpr]
    rfl
  have hG : serve_static_http aliasv table (strL "GET " ++ rest) =
      serve_found (strL "GET") entry hdrs :=
    serve_eq_serve_found _ _ _ _ _ _ _
      (findSub_append_isSome _ _ _ hterm) hparseG (Or.inl rfl) hfind
  have hH : serve_static_http aliasv table (strL "HEAD " ++ rest) =
      serve_found (strL "HEAD") entry hdrs :=
    serve_eq_serve_found _ _ _ _ _ _ _
      (findSub_append_isSome _ _ _ hterm) hparseH (Or.inr rfl) hfind
  rw [hG, hH]
  unfold serve_found
  by_cases hneg : negotiate entry hdrs = true
  · rw [if_pos hneg, if_pos hneg]
    cases hres : http_send_response 304 (some entry.contentType) none
        entry.content.length with
    | none => exact Or.inl ⟨rfl, rfl⟩
    | some r =>
      rcases hsr_inv _ _ _ _ _ hres with ⟨hcode, -, hlen, hbody⟩
      refine Or.inr ⟨r, r, rfl, rfl, rfl, rfl, rfl, ?_, hlen, ?_⟩
      · rw [hbody]
        rfl
      · intro h200
        rw [hcode] at h200
        exact absurd h200 (by decide)
  · rw [if_neg hneg, if_neg hneg]
    rw [if_neg (show ¬ strL "GET" = strL "HEAD" from by decide), if_pos rfl]
    unfold http_send_response
    rw [render_header_mk 200 (mkCustomHdrs (some entry.contentType))
        entry.content.length
        (bodyBytes (some entry.content) entry.content.length),
      render_header_mk 200 (mkCustomHdrs (some entry.contentType))
        entry.content.length (bodyBytes none entry.content.length)]
    by_cases h512 : 512 ≤ (render_header ⟨200,
        mkCustomHdrs (some entry.contentType), entry.content.length, []⟩).length
    · rw [if_pos h512, if_pos h512]
      exact Or.inl ⟨rfl, rfl⟩
    · rw [if_neg h512, if_neg h512]
      refine Or.inr ⟨_, _, rfl, rfl, rfl, rfl,
        (render_header_mk _ _ _ _).trans (render_header_mk _ _ _ _).symm,
        ?_, rfl, ?_⟩
      · rfl
      · intro _
        show (bodyBytes (some entry.content) entry.content.length).length =
          entry.content.length
        rw [bodyBytes_full]

/-- Witness for C6 on a concrete table and request remainder. -/
theorem c6_head_parity_witness :
    (findSub (strL "/a.html HTTP/1.1\r\n\r\n") (strL "\r\n\r\n")).isSome = true ∧
    parse_rest (strL "/a.html HTTP/1.1\r\n\r\n") =
      some (strL "/a.html", strL "\r\n") ∧
    static_find_path index_html
      [⟨strL "/a.html", strL "text/html", strL "Hi"⟩] (strL "/a.html") =
      some ⟨strL "/a.html", strL "text/html", strL "Hi"⟩ ∧
    ((serve_static_http index_html
        [⟨strL "/a.html", strL "text/html", strL "Hi"⟩]
        (strL "GET " ++ strL "/a.html HTTP/1.1\r\n\r\n") = none ∧
      serve_static_http index_html
        [⟨strL "/a.html", strL "text/html", strL "Hi"⟩]
        (strL "HEAD " ++ strL "/a.html HTTP/1.1\r\n\r\n") = none) ∨
    (∃ rG rH, serve_static_http index_html
        [⟨strL "/a.html", strL "text/html", strL "Hi"⟩]
        (strL "GET " ++ strL "/a.html HTTP/1.1\r\n\r\n") = some rG ∧
      serve_static_http index_html
        [⟨strL "/a.html", strL "text/html", strL "Hi"⟩]
        (strL "HEAD " ++ strL "/a.html HTTP/1.1\r\n\r\n") = some rH ∧
      rG.code = rH.code ∧ rG.customHdrs = rH.customHdrs ∧
      render_header rG = render_header rH ∧
      rH.body = [] ∧
      rH.contentLength =
        (AssetRecord.mk (strL "/a.html") (strL "text/html")
          (strL "Hi")).content.length ∧
      (rG.code = 200 → rG.body.length = rH.contentLength))) :=
  ⟨by decide, by decide, by decide,
    c6_head_parity index_html
      [⟨strL "/a.html", strL "text/html", strL "Hi"⟩]
      (strL "/a.html HTTP/1.1\r\n\r\n") (strL "/a.html") (strL "\r\n")
      ⟨strL "/a.html", strL "text/html", strL "Hi"⟩
      (by decide) (by decide) (by decide)⟩
